import Mathlib

set_option maxHeartbeats 1000000

namespace Ch32v208

/-- Status register (STATR) bits of the flash controller read by the code:
write-busy, busy, end-of-operation, write-protect-error. -/
structure Statr where
  wr_bsy : Bool
  bsy : Bool
  eop : Bool
  wrprterr : Bool
deriving Repr, DecidableEq

/-- Control register (CTLR) bits of the flash controller touched or read by the code. -/
structure Ctlr where
  lock : Bool
  flock : Bool
  ber32 : Bool
  strt : Bool
  page_pg : Bool
  pgstart : Bool
deriving Repr, DecidableEq

/-- One observable register write or memory write performed by the routine.
Status reads are counted separately (field reads of St); they are driven by
an oracle describing what the controller presents. -/
inductive Effect where
  | clearEop : Effect
  | setBer32 : Bool → Effect
  | writeAddr : Nat → Effect
  | setStrt : Effect
  | setPagePg : Bool → Effect
  | setPgstart : Effect
  | writeMem : Nat → Nat → Effect
  | writeKeyr : Nat → Effect
  | writeModekeyr : Nat → Effect
  | setLock : Effect
deriving Repr, DecidableEq

/-- Machine state threaded through the routine: number of status reads so far,
the control register, the address register, and the ordered trace of writes. -/
structure St where
  reads : Nat
  ctlr : Ctlr
  addrReg : Nat
  trace : List Effect
deriving Repr, DecidableEq

/-- Error kinds of the routine (enum Error in main.rs). -/
inductive Error where
  | Generic : Error
  | WriteTimeout : Error
  | UnlockError : Error
  | InvalidAddress : Error
  | EraseTimeout : Error
  | FlashLocked : Error
  | ProgrammingError : Error
  | VerificationError : Error
  | UnknownFlashState : Error
  | BusyTimeout : Error
deriving Repr, DecidableEq

def FLASH_KEY1 : Nat := 0x45670123

def FLASH_KEY2 : Nat := 0xCDEF89AB

def ERASE_TIMEOUT : Nat := 0xF00000

/-- Physical base of the flash array, added to every logical address. -/
def FLASH_BASE : Nat := 0x08000000

/-- Modulus of u32 arithmetic. -/
def U32 : Nat := 4294967296

/-- Loop of wait_until_not_write_busy: the fuel argument is the number of
remaining iterations of the source loop for _ in 0..ERASE_TIMEOUT.
Each iteration reads STATR (from the oracle, indexed by the read counter);
it continues while wr_bsy is set, then returns ProgrammingError if wrprterr
is set and success otherwise; exhausted fuel yields WriteTimeout. -/
def waitWriteLoop (σ : Nat → Statr) : Nat → St → Except Error Unit × St
  | 0, s => (Except.error Error.WriteTimeout, s)
  | n + 1, s =>
    let st := σ s.reads
    let s1 : St := { s with reads := s.reads + 1 }
    if st.wr_bsy then waitWriteLoop σ n s1
    else if st.wrprterr then (Except.error Error.ProgrammingError, s1)
    else (Except.ok (), s1)

/-- fn wait_until_not_write_busy() from main.rs. -/
def wait_until_not_write_busy (σ : Nat → Statr) (s : St) : Except Error Unit × St :=
  waitWriteLoop σ ERASE_TIMEOUT s

/-- Loop of wait_until_not_busy: continues while bsy is set and eop is not;
on exit returns ProgrammingError if wrprterr is set, otherwise clears eop
(a STATR write, recorded in the trace) and returns success; exhausted fuel
yields EraseTimeout. -/
def waitBusyLoop (σ : Nat → Statr) : Nat → St → Except Error Unit × St
  | 0, s => (Except.error Error.EraseTimeout, s)
  | n + 1, s =>
    let st := σ s.reads
    let s1 : St := { s with reads := s.reads + 1 }
    if st.bsy && !st.eop then waitBusyLoop σ n s1
    else if st.wrprterr then (Except.error Error.ProgrammingError, s1)
    else (Except.ok (), { s1 with trace := s1.trace ++ [Effect.clearEop] })

/-- fn wait_until_not_busy() from main.rs. -/
def wait_until_not_busy (σ : Nat → Statr) (s : St) : Except Error Unit × St :=
  waitBusyLoop σ ERASE_TIMEOUT s

/-- u32::from_le_bytes on four bytes (each taken mod 256, as u8). -/
def le32 (b0 b1 b2 b3 : Nat) : Nat :=
  b0 % 256 + 256 * (b1 % 256) + 65536 * (b2 % 256) + 16777216 * (b3 % 256)

/-- The word loop of program_page: for each complete 4-byte chunk of data
(chunks_exact(4); a trailing remainder is dropped), write the little-endian
word to the current address by a volatile store, then wait for the write
cycle; addresses advance by 4. -/
def programWords (σ : Nat → Statr) : List Nat → Nat → St → Except Error Unit × St
  | b0 :: b1 :: b2 :: b3 :: rest, a, s =>
    let s1 : St := { s with trace := s.trace ++ [Effect.writeMem a (le32 b0 b1 b2 b3)] }
    match wait_until_not_write_busy σ s1 with
    | (Except.error e, s2) => (Except.error e, s2)
    | (Except.ok _, s2) => programWords σ rest (a + 4) s2
  | _, _, s => (Except.ok (), s)

/-- fn erase_sector(&mut self, addr: u32) from main.rs. -/
def erase_sector (σ : Nat → Statr) (s : St) (addr : Nat) : Except Error Unit × St :=
  let a := (addr + FLASH_BASE) % U32
  if a &&& 0x7FFF ≠ 0 then (Except.error Error.InvalidAddress, s)
  else
    match wait_until_not_busy σ s with
    | (Except.error e, s1) => (Except.error e, s1)
    | (Except.ok _, s1) =>
      let s2 : St := { s1 with ctlr := { s1.ctlr with ber32 := true }, trace := s1.trace ++ [Effect.setBer32 true] }
      let s3 : St := { s2 with addrReg := a, trace := s2.trace ++ [Effect.writeAddr a] }
      let s4 : St := { s3 with ctlr := { s3.ctlr with strt := true }, trace := s3.trace ++ [Effect.setStrt] }
      match wait_until_not_busy σ s4 with
      | (Except.error e, s5) => (Except.error e, s5)
      | (Except.ok _, s5) =>
        (Except.ok (), { s5 with ctlr := { s5.ctlr with ber32 := false }, trace := s5.trace ++ [Effect.setBer32 false] })

/-- fn program_page(&mut self, addr: u32, data: &[u8]) from main.rs. -/
def program_page (σ : Nat → Statr) (s : St) (addr : Nat) (data : List Nat) :
    Except Error Unit × St :=
  let a := (addr + FLASH_BASE) % U32
  if s.ctlr.lock || s.ctlr.flock then (Except.error Error.FlashLocked, s)
  else if a &&& 0xFF ≠ 0 then (Except.error Error.InvalidAddress, s)
  else
    let s1 : St := { s with ctlr := { s.ctlr with page_pg := true }, trace := s.trace ++ [Effect.setPagePg true] }
    match wait_until_not_busy σ s1 with
    | (Except.error e, s2) => (Except.error e, s2)
    | (Except.ok _, s2) =>
      match programWords σ data a s2 with
      | (Except.error e, s3) => (Except.error e, s3)
      | (Except.ok _, s3) =>
        let s4 : St := { s3 with ctlr := { s3.ctlr with pgstart := true }, trace := s3.trace ++ [Effect.setPgstart] }
        match wait_until_not_busy σ s4 with
        | (Except.error e, s5) => (Except.error e, s5)
        | (Except.ok _, s5) =>
          (Except.ok (), { s5 with ctlr := { s5.ctlr with page_pg := false }, trace := s5.trace ++ [Effect.setPagePg false] })

/-- fn new(..) from main.rs: the two-phase key writes unlocking flash and
quick-program mode; always succeeds. -/
def newAlgorithm (s : St) : Except Error Unit × St :=
  (Except.ok (), { s with trace := s.trace ++
    [Effect.writeKeyr FLASH_KEY1, Effect.writeKeyr FLASH_KEY2,
     Effect.writeModekeyr FLASH_KEY1, Effect.writeModekeyr FLASH_KEY2] })

/-- Drop for Algorithm from main.rs: set the lock bit. -/
def dropAlgorithm (s : St) : St :=
  { s with ctlr := { s.ctlr with lock := true }, trace := s.trace ++ [Effect.setLock] }

/-- Control register with every tracked bit clear. -/
def ctlr0 : Ctlr := ⟨false, false, false, false, false, false⟩

/-- Initial machine state: no reads, all control bits clear, empty trace. -/
def st0 : St := ⟨0, ctlr0, 0, []⟩

/-- Status word of an idle, error-free controller. -/
def idleStatr : Statr := ⟨false, false, false, false⟩

/-- Controller that is always idle and never reports an error. -/
def idleOracle : Nat → Statr := fun _ => idleStatr

/-- Controller that always reports busy without end-of-operation. -/
def busyOracle : Nat → Statr := fun _ => ⟨false, true, false, false⟩

/-- Controller that always reports busy together with end-of-operation set. -/
def busyEopOracle : Nat → Statr := fun _ => ⟨false, true, true, false⟩

/-- Controller that is idle on the first read and reports write-protect-error
(not busy) on every later read. -/
def protErrOracle : Nat → Statr := fun i => if i = 0 then idleStatr else ⟨false, false, false, true⟩

/-- Controller that always reports write-busy. -/
def writeBusyOracle : Nat → Statr := fun _ => ⟨true, false, false, false⟩

/-- Controller that always reports write-protect-error while not busy. -/
def protOracle : Nat → Statr := fun _ => ⟨false, false, false, true⟩

/-- Spec-side description of the expected word writes (from the round-trip
sentence of the spec): one little-endian word per complete 4-byte chunk of
data, in order, at consecutive addresses a, a + 4, .... -/
def specWrites (data : List Nat) (a : Nat) : List Effect :=
  (List.range (data.length / 4)).map (fun i =>
    Effect.writeMem (a + 4 * i)
      (le32 (data.getD (4 * i) 0) (data.getD (4 * i + 1) 0)
        (data.getD (4 * i + 2) 0) (data.getD (4 * i + 3) 0)))

/-- State s with the lock and flock bits of the control register replaced. -/
def setLocks (l f : Bool) (s : St) : St :=
  { s with ctlr := { s.ctlr with lock := l, flock := f } }

/-- A controller presentation on which every wait succeeds at its first read:
never write-busy, never write-protect-error, never busy without
end-of-operation. -/
def acceptingOracle (σ : Nat → Statr) : Prop :=
  ∀ i, (σ i).wr_bsy = false ∧ (σ i).wrprterr = false ∧
    ((σ i).bsy = false ∨ (σ i).eop = true)

/-- State-free unfolding of the operation-poller loop: from the fuel and the
index of the next status read it yields the result, the next read index, and
the STATR writes the loop performs. -/
def wbStep (σ : Nat → Statr) : Nat → Nat → Except Error Unit × Nat × List Effect
  | 0, k => (Except.error Error.EraseTimeout, k, [])
  | n + 1, k =>
    let st := σ k
    if st.bsy && !st.eop then wbStep σ n (k + 1)
    else if st.wrprterr then (Except.error Error.ProgrammingError, k + 1, [])
    else (Except.ok (), k + 1, [Effect.clearEop])

/-- The write-cycle loop changes nothing but the read counter. -/
theorem waitWriteLoop_keeps (σ : Nat → Statr) :
    ∀ (n : Nat) (s : St), (waitWriteLoop σ n s).2.ctlr = s.ctlr ∧
      (waitWriteLoop σ n s).2.addrReg = s.addrReg ∧
      (waitWriteLoop σ n s).2.trace = s.trace
  | 0, s => by simp [waitWriteLoop]
  | n + 1, s => by
    by_cases hb : (σ s.reads).wr_bsy = true
    · have ih := waitWriteLoop_keeps σ n { s with reads := s.reads + 1 }
      simpa [waitWriteLoop, hb] using ih
    · simp only [Bool.not_eq_true] at hb
      by_cases hw : (σ s.reads).wrprterr = true
      · simp [waitWriteLoop, hb, hw]
      · simp only [Bool.not_eq_true] at hw
        simp [waitWriteLoop, hb, hw]

/-- The operation loop never changes the control or address registers. -/
theorem waitBusyLoop_keeps (σ : Nat → Statr) :
    ∀ (n : Nat) (s : St), (waitBusyLoop σ n s).2.ctlr = s.ctlr ∧
      (waitBusyLoop σ n s).2.addrReg = s.addrReg
  | 0, s => by simp [waitBusyLoop]
  | n + 1, s => by
    by_cases hc : ((σ s.reads).bsy && !(σ s.reads).eop) = true
    · have ih := waitBusyLoop_keeps σ n { s with reads := s.reads + 1 }
      simpa [waitBusyLoop, hc] using ih
    · have hc2 : ((σ s.reads).bsy && !(σ s.reads).eop) = false := by
        simpa using hc
      by_cases hw : (σ s.reads).wrprterr = true
      · simp [waitBusyLoop, hc2, hw]
      · simp only [Bool.not_eq_true] at hw
        simp [waitBusyLoop, hc2, hw]

/-- A write-cycle loop that sees write-busy on every iteration exhausts its
fuel, does exactly that many status reads, and reports WriteTimeout. -/
theorem waitWriteLoop_timeout (σ : Nat → Statr) :
    ∀ (n : Nat) (s : St),
      (∀ i, i < n → (σ (s.reads + i)).wr_bsy = true) →
      waitWriteLoop σ n s =
        (Except.error Error.WriteTimeout, { s with reads := s.reads + n })
  | 0, s, _ => by simp [waitWriteLoop]
  | n + 1, s, h => by
    have h0 := h 0 (Nat.succ_pos n)
    simp only [Nat.add_zero] at h0
    have ih := waitWriteLoop_timeout σ n { s with reads := s.reads + 1 } (by
      intro i hi
      have h2 := h (i + 1) (by omega)
      have e : s.reads + (i + 1) = ({ s with reads := s.reads + 1 } : St).reads + i := by
        show s.reads + (i + 1) = s.reads + 1 + i
        omega
      rwa [e] at h2)
    have e2 : s.reads + 1 + n = s.reads + (n + 1) := by omega
    simp [waitWriteLoop, h0, ih, e2]

/-- An operation loop that sees busy-without-end-of-operation on every
iteration exhausts its fuel, does exactly that many status reads, and
reports EraseTimeout. -/
theorem waitBusyLoop_timeout (σ : Nat → Statr) :
    ∀ (n : Nat) (s : St),
      (∀ i, i < n → (σ (s.reads + i)).bsy = true ∧ (σ (s.reads + i)).eop = false) →
      waitBusyLoop σ n s =
        (Except.error Error.EraseTimeout, { s with reads := s.reads + n })
  | 0, s, _ => by simp [waitBusyLoop]
  | n + 1, s, h => by
    have h0 := h 0 (Nat.succ_pos n)
    simp only [Nat.add_zero] at h0
    have ih := waitBusyLoop_timeout σ n { s with reads := s.reads + 1 } (by
      intro i hi
      have h2 := h (i + 1) (by omega)
      have e : s.reads + (i + 1) = ({ s with reads := s.reads + 1 } : St).reads + i := by
        show s.reads + (i + 1) = s.reads + 1 + i
        omega
      rwa [e] at h2)
    have e2 : s.reads + 1 + n = s.reads + (n + 1) := by omega
    simp [waitBusyLoop, h0.1, h0.2, ih, e2]

/-- If the write-cycle loop sees write-busy for the first j reads and then a
not-write-busy status, it stops after j + 1 reads: ProgrammingError when that
status has wrprterr set, success otherwise. -/
theorem waitWriteLoop_exit (σ : Nat → Statr) :
    ∀ (j n : Nat) (s : St), j < n →
      (∀ i, i < j → (σ (s.reads + i)).wr_bsy = true) →
      (σ (s.reads + j)).wr_bsy = false →
      waitWriteLoop σ n s =
        (if (σ (s.reads + j)).wrprterr = true
          then (Except.error Error.ProgrammingError, { s with reads := s.reads + j + 1 })
          else (Except.ok (), { s with reads := s.reads + j + 1 }))
  | 0, n, s, hn, _, hexit => by
    obtain ⟨m, rfl⟩ : ∃ m, n = m + 1 := ⟨n - 1, by omega⟩
    simp only [Nat.add_zero] at hexit ⊢
    by_cases hw : (σ s.reads).wrprterr = true
    · simp [waitWriteLoop, hexit, hw]
    · simp only [Bool.not_eq_true] at hw
      simp [waitWriteLoop, hexit, hw]
  | j + 1, n, s, hn, hcont, hexit => by
    obtain ⟨m, rfl⟩ : ∃ m, n = m + 1 := ⟨n - 1, by omega⟩
    have h0 := hcont 0 (Nat.succ_pos j)
    simp only [Nat.add_zero] at h0
    have ih := waitWriteLoop_exit σ j m { s with reads := s.reads + 1 } (by omega)
      (by
        intro i hi
        have h2 := hcont (i + 1) (by omega)
        have e : s.reads + (i + 1) = ({ s with reads := s.reads + 1 } : St).reads + i := by
          show s.reads + (i + 1) = s.reads + 1 + i
          omega
        rwa [e] at h2)
      (by
        have e : s.reads + (j + 1) = ({ s with reads := s.reads + 1 } : St).reads + j := by
          show s.reads + (j + 1) = s.reads + 1 + j
          omega
        rwa [e] at hexit)
    have e1 : s.reads + 1 + j = s.reads + (j + 1) := by omega
    have e2 : s.reads + 1 + j + 1 = s.reads + (j + 1) + 1 := by omega
    simp [waitWriteLoop, h0, ih, e1, e2]

/-- If the operation loop sees busy-without-end-of-operation for the first j
reads and then a status that is not busy or has end-of-operation set, it stops
after j + 1 reads: ProgrammingError when that status has wrprterr set,
otherwise it clears eop and succeeds. -/
theorem waitBusyLoop_exit (σ : Nat → Statr) :
    ∀ (j n : Nat) (s : St), j < n →
      (∀ i, i < j → (σ (s.reads + i)).bsy = true ∧ (σ (s.reads + i)).eop = false) →
      ((σ (s.reads + j)).bsy = false ∨ (σ (s.reads + j)).eop = true) →
      waitBusyLoop σ n s =
        (if (σ (s.reads + j)).wrprterr = true
          then (Except.error Error.ProgrammingError, { s with reads := s.reads + j + 1 })
          else (Except.ok (), { s with reads := s.reads + j + 1, trace := s.trace ++ [Effect.clearEop] }))
  | 0, n, s, hn, _, hexit => by
    obtain ⟨m, rfl⟩ : ∃ m, n = m + 1 := ⟨n - 1, by omega⟩
    simp only [Nat.add_zero] at hexit ⊢
    have hc : ((σ s.reads).bsy && !(σ s.reads).eop) = false := by
      rcases hexit with h | h <;> simp [h]
    by_cases hw : (σ s.reads).wrprterr = true
    · simp [waitBusyLoop, hc, hw]
    · simp only [Bool.not_eq_true] at hw
      simp [waitBusyLoop, hc, hw]
  | j + 1, n, s, hn, hcont, hexit => by
    obtain ⟨m, rfl⟩ : ∃ m, n = m + 1 := ⟨n - 1, by omega⟩
    have h0 := hcont 0 (Nat.succ_pos j)
    simp only [Nat.add_zero] at h0
    have ih := waitBusyLoop_exit σ j m { s with reads := s.reads + 1 } (by omega)
      (by
        intro i hi
        have h2 := hcont (i + 1) (by omega)
        have e : s.reads + (i + 1) = ({ s with reads := s.reads + 1 } : St).reads + i := by
          show s.reads + (i + 1) = s.reads + 1 + i
          omega
        rwa [e] at h2)
      (by
        have e : s.reads + (j + 1) = ({ s with reads := s.reads + 1 } : St).reads + j := by
          show s.reads + (j + 1) = s.reads + 1 + j
          omega
        rwa [e] at hexit)
    have e1 : s.reads + 1 + j = s.reads + (j + 1) := by omega
    have e2 : s.reads + 1 + j + 1 = s.reads + (j + 1) + 1 := by omega
    simp [waitBusyLoop, h0.1, h0.2, ih, e1, e2]

/-- When the write-cycle loop succeeds, at least one status read happened and
the last status read had the write-busy flag clear. -/
theorem waitWriteLoop_ok_last (σ : Nat → Statr) :
    ∀ (n : Nat) (s s' : St), waitWriteLoop σ n s = (Except.ok (), s') →
      s.reads < s'.reads ∧ (σ (s'.reads - 1)).wr_bsy = false
  | 0, s, s', h => by simp [waitWriteLoop] at h
  | n + 1, s, s', h => by
    by_cases hb : (σ s.reads).wr_bsy = true
    · simp only [waitWriteLoop, hb, if_pos] at h
      have ih := waitWriteLoop_ok_last σ n { s with reads := s.reads + 1 } s' h
      have h1 : s.reads + 1 < s'.reads := ih.1
      exact ⟨by omega, ih.2⟩
    · simp only [Bool.not_eq_true] at hb
      by_cases hw : (σ s.reads).wrprterr = true
      · simp [waitWriteLoop, hb, hw] at h
      · simp only [Bool.not_eq_true] at hw
        simp only [waitWriteLoop, hb, hw, Bool.false_eq_true, if_neg, ite_false,
          Prod.mk.injEq, not_false_eq_true] at h
        obtain ⟨-, h2⟩ := h
        subst h2
        exact ⟨Nat.lt_succ_self s.reads, by simpa using hb⟩

/-- When the operation loop succeeds, at least one status read happened and
the last status read was not busy-without-end-of-operation. -/
theorem waitBusyLoop_ok_last (σ : Nat → Statr) :
    ∀ (n : Nat) (s s' : St), waitBusyLoop σ n s = (Except.ok (), s') →
      s.reads < s'.reads ∧
        ((σ (s'.reads - 1)).bsy = false ∨ (σ (s'.reads - 1)).eop = true)
  | 0, s, s', h => by simp [waitBusyLoop] at h
  | n + 1, s, s', h => by
    by_cases hc : ((σ s.reads).bsy && !(σ s.reads).eop) = true
    · simp only [waitBusyLoop, hc, if_pos] at h
      have ih := waitBusyLoop_ok_last σ n { s with reads := s.reads + 1 } s' h
      have h1 : s.reads + 1 < s'.reads := ih.1
      exact ⟨by omega, ih.2⟩
    · have hc2 : ((σ s.reads).bsy && !(σ s.reads).eop) = false := by simpa using hc
      by_cases hw : (σ s.reads).wrprterr = true
      · simp [waitBusyLoop, hc2, hw] at h
      · simp only [Bool.not_eq_true] at hw
        simp only [waitBusyLoop, hc2, hw, Bool.false_eq_true, if_neg, ite_false,
          Prod.mk.injEq, not_false_eq_true] at h
        obtain ⟨-, h2⟩ := h
        subst h2
        refine ⟨Nat.lt_succ_self s.reads, ?_⟩
        have : (σ (s.reads + 1 - 1)).bsy = false ∨ (σ (s.reads + 1 - 1)).eop = true := by
          simp only [Nat.add_sub_cancel]
          cases hb : (σ s.reads).bsy <;> cases he : (σ s.reads).eop <;>
            simp_all
        simpa using this

/-- C5: wait_until_not_busy repeatedly reads status, continuing while the
busy flag is set and end-of-operation is not; on exit it returns
ProgrammingError if write-protect-error is set and otherwise clears
end-of-operation and succeeds; and on a controller that reports
busy-without-end-of-operation on every iteration it returns EraseTimeout
after exactly ERASE_TIMEOUT status reads, never success. -/
theorem wait_until_not_busy_spec :
    (∀ (σ : Nat → Statr) (s : St) (j : Nat), j < ERASE_TIMEOUT →
      (∀ i, i < j → (σ (s.reads + i)).bsy = true ∧ (σ (s.reads + i)).eop = false) →
      ((σ (s.reads + j)).bsy = false ∨ (σ (s.reads + j)).eop = true) →
      wait_until_not_busy σ s =
        (if (σ (s.reads + j)).wrprterr = true
          then (Except.error Error.ProgrammingError, { s with reads := s.reads + j + 1 })
          else (Except.ok (), { s with reads := s.reads + j + 1, trace := s.trace ++ [Effect.clearEop] })))
    ∧
    (∀ (σ : Nat → Statr) (s : St),
      (∀ i, i < ERASE_TIMEOUT → (σ (s.reads + i)).bsy = true ∧ (σ (s.reads + i)).eop = false) →
      wait_until_not_busy σ s =
        (Except.error Error.EraseTimeout, { s with reads := s.reads + ERASE_TIMEOUT })) :=
  ⟨fun σ s j hj hcont hexit => waitBusyLoop_exit σ j ERASE_TIMEOUT s hj hcont hexit,
   fun σ s h => waitBusyLoop_timeout σ ERASE_TIMEOUT s h⟩

/-- C5 witness: on the always-busy controller the operation poller reports
EraseTimeout after exactly ERASE_TIMEOUT status reads, and on the
write-protect-error controller it reports ProgrammingError. -/
theorem wait_until_not_busy_spec_witness :
    wait_until_not_busy busyOracle st0 =
      (Except.error Error.EraseTimeout, { st0 with reads := st0.reads + ERASE_TIMEOUT })
    ∧ (wait_until_not_busy protOracle st0).1 = Except.error Error.ProgrammingError := by
  constructor
  · exact wait_until_not_busy_spec.2 busyOracle st0 (fun i _ => ⟨rfl, rfl⟩)
  · rw [wait_until_not_busy_spec.1 protOracle st0 0 (by norm_num [ERASE_TIMEOUT])
      (fun i hi => absurd hi (Nat.not_lt_zero i)) (Or.inl rfl)]
    rfl

/-- C6: wait_until_not_write_busy repeatedly reads status, continuing while
the write-busy flag is set; once write-busy is clear it returns
ProgrammingError if write-protect-error is set and success otherwise; and on
a controller that reports write-busy on every iteration it returns
WriteTimeout after exactly ERASE_TIMEOUT status reads. -/
theorem wait_until_not_write_busy_spec :
    (∀ (σ : Nat → Statr) (s : St) (j : Nat), j < ERASE_TIMEOUT →
      (∀ i, i < j → (σ (s.reads + i)).wr_bsy = true) →
      (σ (s.reads + j)).wr_bsy = false →
      wait_until_not_write_busy σ s =
        (if (σ (s.reads + j)).wrprterr = true
          then (Except.error Error.ProgrammingError, { s with reads := s.reads + j + 1 })
          else (Except.ok (), { s with reads := s.reads + j + 1 })))
    ∧
    (∀ (σ : Nat → Statr) (s : St),
      (∀ i, i < ERASE_TIMEOUT → (σ (s.reads + i)).wr_bsy = true) →
      wait_until_not_write_busy σ s =
        (Except.error Error.WriteTimeout, { s with reads := s.reads + ERASE_TIMEOUT })) :=
  ⟨fun σ s j hj hcont hexit => waitWriteLoop_exit σ j ERASE_TIMEOUT s hj hcont hexit,
   fun σ s h => waitWriteLoop_timeout σ ERASE_TIMEOUT s h⟩

/-- C6 witness: on the always-write-busy controller the write-cycle poller
reports WriteTimeout after exactly ERASE_TIMEOUT status reads, and on the
write-protect-error controller it reports ProgrammingError. -/
theorem wait_until_not_write_busy_spec_witness :
    wait_until_not_write_busy writeBusyOracle st0 =
      (Except.error Error.WriteTimeout, { st0 with reads := st0.reads + ERASE_TIMEOUT })
    ∧ (wait_until_not_write_busy protOracle st0).1 = Except.error Error.ProgrammingError := by
  constructor
  · exact wait_until_not_write_busy_spec.2 writeBusyOracle st0 (fun i _ => rfl)
  · rw [wait_until_not_write_busy_spec.1 protOracle st0 0 (by norm_num [ERASE_TIMEOUT])
      (fun i hi => absurd hi (Nat.not_lt_zero i)) rfl]
    rfl

/-- C1 (amended): the write-cycle poller never returns success while the last
status it read has the write-busy flag set, and the operation poller never
returns success while the last status it read is busy without
end-of-operation; each poller otherwise exhausts its iteration budget with a
timeout error. The operation poller does, however, return success on a
status with busy and end-of-operation both set. -/
theorem pollers_no_success_while_busy (σ : Nat → Statr) (s s' : St) :
    (wait_until_not_write_busy σ s = (Except.ok (), s') →
      s.reads < s'.reads ∧ (σ (s'.reads - 1)).wr_bsy = false)
    ∧ (wait_until_not_busy σ s = (Except.ok (), s') →
      s.reads < s'.reads ∧
        ((σ (s'.reads - 1)).bsy = false ∨ (σ (s'.reads - 1)).eop = true)) :=
  ⟨fun h => waitWriteLoop_ok_last σ ERASE_TIMEOUT s s' h,
   fun h => waitBusyLoop_ok_last σ ERASE_TIMEOUT s s' h⟩

/-- C1 witness: instantiating the no-success-while-busy property of the
write-cycle poller on the always-idle controller. -/
theorem pollers_no_success_while_busy_witness :
    st0.reads < 1 ∧ (idleOracle (1 - 1)).wr_bsy = false :=
  (pollers_no_success_while_busy idleOracle st0 { st0 with reads := 1 }).1 rfl

/-- C1 counterexample: on a controller presenting busy together with
end-of-operation, the operation poller returns success after a single status
read whose busy flag is still set, refuting the claim as stated for
wait_until_not_busy. -/
theorem wait_until_not_busy_success_while_busy :
    (wait_until_not_busy busyEopOracle st0).1 = Except.ok ()
    ∧ (wait_until_not_busy busyEopOracle st0).2.reads = 1
    ∧ (busyEopOracle 0).bsy = true :=
  ⟨rfl, rfl, rfl⟩

/-- C2: on an always-idle, never-protected controller, erase_sector 0 polls
until idle (one status read, consuming eop), sets block-erase-32, writes
physical address 0x08000000 (logical 0 plus the fixed base) to the address
register, sets the start bit, polls until idle again, clears block-erase-32,
and returns success, in exactly this order of controller effects. -/
theorem erase_sector_scenario :
    erase_sector idleOracle st0 0x0000 =
      (Except.ok (),
        { reads := 2,
          ctlr := { lock := false, flock := false, ber32 := false, strt := true,
                    page_pg := false, pgstart := false },
          addrReg := 0x08000000,
          trace := [Effect.clearEop, Effect.setBer32 true, Effect.writeAddr 0x08000000,
                    Effect.setStrt, Effect.clearEop, Effect.setBer32 false] }) := rfl

/-- The alignment test of erase_sector on the translated physical address is
the sector-size alignment of the logical address. -/
theorem erase_align_mod (a : Nat) :
    ((a + FLASH_BASE) % U32) &&& 0x7FFF = a % 0x8000 := by
  have h1 : (0x7FFF : Nat) = 2 ^ 15 - 1 := by norm_num
  have h2 : (0x8000 : Nat) = 2 ^ 15 := by norm_num
  rw [h1, Nat.and_pow_two_sub_one_eq_mod, ← h2,
    Nat.mod_mod_of_dvd _ (by norm_num [U32] : (0x8000 : Nat) ∣ U32)]
  have h3 : FLASH_BASE = 0x8000 * 4096 := by norm_num [FLASH_BASE]
  rw [h3, Nat.add_mul_mod_self_left]

/-- The alignment test of program_page on the translated physical address is
the page-size alignment of the logical address. -/
theorem page_align_mod (a : Nat) :
    ((a + FLASH_BASE) % U32) &&& 0xFF = a % 0x100 := by
  have h1 : (0xFF : Nat) = 2 ^ 8 - 1 := by norm_num
  have h2 : (0x100 : Nat) = 2 ^ 8 := by norm_num
  rw [h1, Nat.and_pow_two_sub_one_eq_mod, ← h2,
    Nat.mod_mod_of_dvd _ (by norm_num [U32] : (0x100 : Nat) ∣ U32)]
  have h3 : FLASH_BASE = 0x100 * 524288 := by norm_num [FLASH_BASE]
  rw [h3, Nat.add_mul_mod_self_left]

/-- C8: a logical address that is not a multiple of the sector size 0x8000
makes erase_sector return InvalidAddress with the machine state untouched
(no register write, in particular no start bit); a logical address that is
not a multiple of the page size 0x100 makes program_page on an unlocked
controller return InvalidAddress with the machine state untouched. -/
theorem misaligned_returns_invalid_address (σ : Nat → Statr) (s : St) (a : Nat)
    (data : List Nat) :
    (a % 0x8000 ≠ 0 → erase_sector σ s a = (Except.error Error.InvalidAddress, s))
    ∧ (s.ctlr.lock = false → s.ctlr.flock = false → a % 0x100 ≠ 0 →
      program_page σ s a data = (Except.error Error.InvalidAddress, s)) := by
  constructor
  · intro h
    have h2 : ((a + FLASH_BASE) % U32) &&& 0x7FFF ≠ 0 := by
      rw [erase_align_mod]
      exact h
    simp only [erase_sector]
    rw [if_pos h2]
  · intro hl hf h
    have h2 : ((a + FLASH_BASE) % U32) &&& 0xFF ≠ 0 := by
      rw [page_align_mod]
      exact h
    simp [program_page, hl, hf, h2]

/-- C8 witness: logical address 1 is rejected by both operations on the
unlocked initial state. -/
theorem misaligned_returns_invalid_address_witness :
    erase_sector idleOracle st0 1 = (Except.error Error.InvalidAddress, st0)
    ∧ program_page idleOracle st0 1 [] = (Except.error Error.InvalidAddress, st0) :=
  ⟨(misaligned_returns_invalid_address idleOracle st0 1 []).1 (by decide),
   (misaligned_returns_invalid_address idleOracle st0 1 []).2 rfl rfl (by decide)⟩

/-- C7: if the control register reports the lock or flock bit set,
program_page returns FlashLocked with the machine state untouched: no memory
word is written and no controller register is modified, for every address
(aligned or not) and every data slice, so the lock check precedes the
alignment check. -/
theorem program_page_locked (σ : Nat → Statr) (s : St) (a : Nat) (data : List Nat)
    (h : s.ctlr.lock = true ∨ s.ctlr.flock = true) :
    program_page σ s a data = (Except.error Error.FlashLocked, s) := by
  rcases h with h | h <;> simp [program_page, h]

/-- C7 witness: a controller with the global lock bit set rejects a program
of the misaligned address 1 as FlashLocked, leaving the state unchanged. -/
theorem program_page_locked_witness :
    program_page idleOracle { st0 with ctlr := { ctlr0 with lock := true } } 0x0001 [0x01] =
      (Except.error Error.FlashLocked, { st0 with ctlr := { ctlr0 with lock := true } }) :=
  program_page_locked idleOracle { st0 with ctlr := { ctlr0 with lock := true } } 0x0001 [0x01]
    (Or.inl rfl)

/-- wait_until_not_busy never changes the control register. -/
theorem wait_ctlr (σ : Nat → Statr) (s : St) :
    (wait_until_not_busy σ s).2.ctlr = s.ctlr :=
  (waitBusyLoop_keeps σ ERASE_TIMEOUT s).1

/-- wait_until_not_write_busy never changes the control register. -/
theorem write_wait_ctlr (σ : Nat → Statr) (s : St) :
    (wait_until_not_write_busy σ s).2.ctlr = s.ctlr :=
  (waitWriteLoop_keeps σ ERASE_TIMEOUT s).1

/-- The word-programming loop never changes the control register. -/
theorem programWords_ctlr (σ : Nat → Statr) :
    ∀ (data : List Nat) (a : Nat) (s : St), (programWords σ data a s).2.ctlr = s.ctlr
  | b0 :: b1 :: b2 :: b3 :: rest, a, s => by
    simp only [programWords]
    split
    case _ e s2 heq =>
      have hk := congrArg (fun p => p.2.ctlr) heq
      simp only [] at hk
      rw [write_wait_ctlr] at hk
      simpa using hk.symm
    case _ u s2 heq =>
      have hk := congrArg (fun p => p.2.ctlr) heq
      simp only [] at hk
      rw [write_wait_ctlr] at hk
      have ih := programWords_ctlr σ rest (a + 4) s2
      rw [ih]
      simpa using hk.symm
  | [], a, s => by simp [programWords]
  | [b0], a, s => by simp [programWords]
  | [b0, b1], a, s => by simp [programWords]
  | [b0, b1, b2], a, s => by simp [programWords]

/-- C4: if a polling wait inside erase_sector fails after block-erase-32 was
set (the first wait succeeded and the result is an error other than the
alignment error), the error is propagated with ber32 still set; if a wait
inside program_page fails after page-program was set (the result is an error
other than FlashLocked and InvalidAddress), the error is propagated with
page_pg still set. -/
theorem failed_wait_leaves_mode_armed (σ : Nat → Statr) (s : St) (a : Nat)
    (data : List Nat) (e : Error) (s' : St) :
    ((wait_until_not_busy σ s).1 = Except.ok () →
      erase_sector σ s a = (Except.error e, s') →
      e ≠ Error.InvalidAddress → s'.ctlr.ber32 = true)
    ∧ (program_page σ s a data = (Except.error e, s') →
      e ≠ Error.FlashLocked → e ≠ Error.InvalidAddress →
      s'.ctlr.page_pg = true) := by
  constructor
  · intro h1 h2 hne
    simp only [erase_sector] at h2
    split at h2
    · injection h2 with h3 h4
      injection h3 with h5
      exact absurd h5.symm hne
    · split at h2
      case _ e1 s1 heq =>
        rw [heq] at h1
        simp at h1
      case _ u s1 heq =>
        split at h2
        case _ e2 s5 heq2 =>
          have hk := congrArg (fun p => p.2.ctlr) heq2
          simp only [] at hk
          rw [wait_ctlr] at hk
          injection h2 with h3 h4
          subst h4
          rw [← hk]
        case _ u2 s5 heq2 =>
          exact absurd (congrArg Prod.fst h2) (by simp)
  · intro h2 hnl hna
    simp only [program_page] at h2
    split at h2
    · injection h2 with h3 h4
      injection h3 with h5
      exact absurd h5.symm hnl
    · split at h2
      · injection h2 with h3 h4
        injection h3 with h5
        exact absurd h5.symm hna
      · split at h2
        case _ e1 s2 heq =>
          have hk := congrArg (fun p => p.2.ctlr) heq
          simp only [] at hk
          rw [wait_ctlr] at hk
          injection h2 with h3 h4
          subst h4
          rw [← hk]
        case _ u s2 heq =>
          split at h2
          case _ e2 s3 heq2 =>
            have hk := congrArg (fun p => p.2.ctlr) heq2
            simp only [] at hk
            rw [programWords_ctlr] at hk
            have hk1 := congrArg (fun p => p.2.ctlr) heq
            simp only [] at hk1
            rw [wait_ctlr] at hk1
            injection h2 with h3 h4
            subst h4
            rw [← hk, ← hk1]
          case _ u2 s3 heq2 =>
            split at h2
            case _ e3 s5 heq3 =>
              have hk := congrArg (fun p => p.2.ctlr) heq3
              simp only [] at hk
              rw [wait_ctlr] at hk
              have hk2 := congrArg (fun p => p.2.ctlr) heq2
              simp only [] at hk2
              rw [programWords_ctlr] at hk2
              have hk1 := congrArg (fun p => p.2.ctlr) heq
              simp only [] at hk1
              rw [wait_ctlr] at hk1
              injection h2 with h3 h4
              subst h4
              rw [← hk]
              show (({ s3 with ctlr := { s3.ctlr with pgstart := true }, trace := s3.trace ++ [Effect.setPgstart] } : St)).ctlr.page_pg = true
              show s3.ctlr.page_pg = true
              rw [← hk2, ← hk1]
            case _ u3 s5 heq3 =>
              exact absurd (congrArg Prod.fst h2) (by simp)

/-- C4 witness: on a controller that is idle once and then reports
write-protect-error, both operations fail with ProgrammingError and leave
their mode bit armed. -/
theorem failed_wait_leaves_mode_armed_witness :
    (erase_sector protErrOracle st0 0).2.ctlr.ber32 = true
    ∧ (program_page protErrOracle st0 0 []).2.ctlr.page_pg = true :=
  ⟨(failed_wait_leaves_mode_armed protErrOracle st0 0 [] Error.ProgrammingError
      (erase_sector protErrOracle st0 0).2).1 rfl rfl (by decide),
   (failed_wait_leaves_mode_armed protErrOracle st0 0 [] Error.ProgrammingError
      (program_page protErrOracle st0 0 []).2).2 rfl (by decide) (by decide)⟩

/-- wbStep only ever produces success, ProgrammingError, or EraseTimeout. -/
theorem wbStep_result (σ : Nat → Statr) :
    ∀ (n k : Nat), (wbStep σ n k).1 = Except.ok ()
      ∨ (wbStep σ n k).1 = Except.error Error.ProgrammingError
      ∨ (wbStep σ n k).1 = Except.error Error.EraseTimeout
  | 0, k => by simp [wbStep]
  | n + 1, k => by
    by_cases hc : ((σ k).bsy && !(σ k).eop) = true
    · have ih := wbStep_result σ n (k + 1)
      simpa [wbStep, hc] using ih
    · have hc2 : ((σ k).bsy && !(σ k).eop) = false := by simpa using hc
      by_cases hv : (σ k).wrprterr = true
      · simp [wbStep, hc2, hv]
      · simp only [Bool.not_eq_true] at hv
        simp [wbStep, hc2, hv]

/-- The operation loop acts on the state exactly as wbStep describes: its
course depends only on the read counter; it advances that counter and
appends the wbStep trace, touching nothing else. -/
theorem waitBusyLoop_norm (σ : Nat → Statr) :
    ∀ (n : Nat) (s : St), waitBusyLoop σ n s =
      ((wbStep σ n s.reads).1, { s with reads := (wbStep σ n s.reads).2.1, trace := s.trace ++ (wbStep σ n s.reads).2.2 })
  | 0, s => by simp [waitBusyLoop, wbStep]
  | n + 1, s => by
    by_cases hc : ((σ s.reads).bsy && !(σ s.reads).eop) = true
    · have ih := waitBusyLoop_norm σ n { s with reads := s.reads + 1 }
      simp [waitBusyLoop, wbStep, hc, ih]
    · have hc2 : ((σ s.reads).bsy && !(σ s.reads).eop) = false := by simpa using hc
      by_cases hv : (σ s.reads).wrprterr = true
      · simp [waitBusyLoop, wbStep, hc2, hv]
      · simp only [Bool.not_eq_true] at hv
        simp [waitBusyLoop, wbStep, hc2, hv]

/-- C10: erase_sector performs no lock-state check: its result and its
effects are independent of the lock and flock bits of the control register
(which it carries through unchanged), and its only possible outcomes are
success, InvalidAddress, ProgrammingError and EraseTimeout, so it can never
return FlashLocked or WriteTimeout. -/
theorem erase_sector_no_lock_check (σ : Nat → Statr) (s : St) (a : Nat) (l f : Bool) :
    ((erase_sector σ s a).1 = Except.ok ()
      ∨ (erase_sector σ s a).1 = Except.error Error.InvalidAddress
      ∨ (erase_sector σ s a).1 = Except.error Error.ProgrammingError
      ∨ (erase_sector σ s a).1 = Except.error Error.EraseTimeout)
    ∧ erase_sector σ (setLocks l f s) a =
      ((erase_sector σ s a).1, setLocks l f (erase_sector σ s a).2) := by
  by_cases hal : ((a + FLASH_BASE) % U32) &&& 0x7FFF ≠ 0
  · constructor
    · simp [erase_sector, hal]
    · simp [erase_sector, hal, setLocks]
  · rcases hres : wbStep σ ERASE_TIMEOUT s.reads with ⟨r, k, tr⟩
    have hr := wbStep_result σ ERASE_TIMEOUT s.reads
    rw [hres] at hr
    simp only [Prod.fst] at hr
    rcases r with e | u
    · constructor
      · have he : (erase_sector σ s a).1 = Except.error e := by
          simp [erase_sector, wait_until_not_busy, waitBusyLoop_norm, hal, hres]
        rw [he]
        rcases hr with h | h | h
        · exact absurd h (by simp)
        · simp [h]
        · simp [h]
      · simp [erase_sector, wait_until_not_busy, waitBusyLoop_norm, hal, hres, setLocks]
    · rcases hres2 : wbStep σ ERASE_TIMEOUT k with ⟨r2, k2, tr2⟩
      have hr2 := wbStep_result σ ERASE_TIMEOUT k
      rw [hres2] at hr2
      simp only [Prod.fst] at hr2
      rcases r2 with e2 | u2
      · constructor
        · have he : (erase_sector σ s a).1 = Except.error e2 := by
            simp [erase_sector, wait_until_not_busy, waitBusyLoop_norm, hal, hres, hres2]
          rw [he]
          rcases hr2 with h | h | h
          · exact absurd h (by simp)
          · simp [h]
          · simp [h]
        · simp [erase_sector, wait_until_not_busy, waitBusyLoop_norm, hal, hres, hres2, setLocks]
      · constructor
        · have he : (erase_sector σ s a).1 = Except.ok () := by
            simp [erase_sector, wait_until_not_busy, waitBusyLoop_norm, hal, hres, hres2]
          simp [he]
        · simp [erase_sector, wait_until_not_busy, waitBusyLoop_norm, hal, hres, hres2, setLocks]

/-- The word loop only ever consumes the longest multiple-of-4 prefix of the
data: trailing bytes beyond the last complete 4-byte chunk are ignored. -/
theorem programWords_take (σ : Nat → Statr) :
    ∀ (data : List Nat) (a : Nat) (s : St),
      programWords σ data a s =
        programWords σ (List.take (4 * (data.length / 4)) data) a s
  | b0 :: b1 :: b2 :: b3 :: rest, a, s => by
    have e1 : 4 * ((b0 :: b1 :: b2 :: b3 :: rest).length / 4) = 4 * (rest.length / 4) + 4 := by
      simp only [List.length_cons]
      omega
    have htake : List.take (4 * (rest.length / 4) + 4) (b0 :: b1 :: b2 :: b3 :: rest)
        = b0 :: b1 :: b2 :: b3 :: List.take (4 * (rest.length / 4)) rest := by
      simp [show 4 * (rest.length / 4) + 4 = 4 * (rest.length / 4) + 1 + 1 + 1 + 1 by omega,
        List.take_succ_cons]
    rw [e1, htake]
    simp only [programWords]
    split
    case _ e s2 heq => rfl
    case _ u s2 heq => exact programWords_take σ rest (a + 4) s2
  | [], a, s => by simp [programWords]
  | [b0], a, s => by simp [programWords]
  | [b0, b1], a, s => by simp [programWords]
  | [b0, b1, b2], a, s => by simp [programWords]

/-- C9: program_page silently ignores trailing bytes beyond the last complete
4-byte word: on every address and controller it behaves exactly as if the
data had been truncated to the largest multiple-of-4 length, so the trailing
bytes are never written and cause no error. -/
theorem program_page_truncates (σ : Nat → Statr) (s : St) (a : Nat) (data : List Nat) :
    program_page σ s a data =
      program_page σ s a (List.take (4 * (data.length / 4)) data) := by
  simp only [program_page]
  split
  · rfl
  · split
    · rfl
    · split
      case _ e s2 heq => rfl
      case _ u s2 heq => rw [← programWords_take]

/-- Unfolding of specWrites on a 4-byte chunk. -/
theorem specWrites_cons4 (b0 b1 b2 b3 : Nat) (rest : List Nat) (a : Nat) :
    specWrites (b0 :: b1 :: b2 :: b3 :: rest) a =
      Effect.writeMem a (le32 b0 b1 b2 b3) :: specWrites rest (a + 4) := by
  simp only [specWrites]
  have e1 : (b0 :: b1 :: b2 :: b3 :: rest).length / 4 = rest.length / 4 + 1 := by
    simp only [List.length_cons]
    omega
  rw [e1, List.range_succ_eq_map]
  simp only [List.map_cons, List.map_map]
  refine congrArg₂ List.cons ?_ ?_
  · simp [List.getD]
  · refine List.map_congr_left ?_
    intro i _
    simp only [Function.comp]
    have p0 : 4 * (i + 1) = 4 * i + 1 + 1 + 1 + 1 := by omega
    rw [p0]
    have r2 : 4 * i + 1 + 1 + 1 + 1 + 2 = 4 * i + 2 + 1 + 1 + 1 + 1 := by omega
    have r3 : 4 * i + 1 + 1 + 1 + 1 + 3 = 4 * i + 3 + 1 + 1 + 1 + 1 := by omega
    have ra : a + (4 * i + 1 + 1 + 1 + 1) = a + 4 + 4 * i := by omega
    rw [r2, r3, ra]
    simp [List.getD_cons_succ]

/-- On an accepting controller the write-cycle wait succeeds after a single
status read. -/
theorem write_wait_accepting (σ : Nat → Statr) (hσ : acceptingOracle σ) (s : St) :
    wait_until_not_write_busy σ s = (Except.ok (), { s with reads := s.reads + 1 }) := by
  have hw := waitWriteLoop_exit σ 0 ERASE_TIMEOUT s (by norm_num [ERASE_TIMEOUT])
    (fun i hi => absurd hi (Nat.not_lt_zero i)) ((hσ (s.reads + 0)).1)
  simp only [Nat.add_zero] at hw
  show waitWriteLoop σ ERASE_TIMEOUT s = (Except.ok (), { s with reads := s.reads + 1 })
  rw [hw, if_neg (by simp [(hσ s.reads).2.1])]

/-- On an accepting controller the operation wait succeeds after a single
status read, clearing eop. -/
theorem busy_wait_accepting (σ : Nat → Statr) (hσ : acceptingOracle σ) (s : St) :
    wait_until_not_busy σ s =
      (Except.ok (), { s with reads := s.reads + 1, trace := s.trace ++ [Effect.clearEop] }) := by
  have hw := waitBusyLoop_exit σ 0 ERASE_TIMEOUT s (by norm_num [ERASE_TIMEOUT])
    (fun i hi => absurd hi (Nat.not_lt_zero i)) ((hσ (s.reads + 0)).2.2)
  simp only [Nat.add_zero] at hw
  show waitBusyLoop σ ERASE_TIMEOUT s = _
  rw [hw, if_neg (by simp [(hσ s.reads).2.1])]

/-- On an accepting controller, the word loop writes exactly the spec-side
word list: one little-endian word per complete 4-byte chunk at consecutive
addresses, with one status read (a write-cycle wait) per chunk. -/
theorem programWords_accepting (σ : Nat → Statr) (hσ : acceptingOracle σ) :
    ∀ (data : List Nat) (a : Nat) (s : St),
      programWords σ data a s =
        (Except.ok (), { s with reads := s.reads + data.length / 4, trace := s.trace ++ specWrites data a })
  | b0 :: b1 :: b2 :: b3 :: rest, a, s => by
    simp only [programWords]
    rw [write_wait_accepting σ hσ]
    simp only []
    rw [programWords_accepting σ hσ rest (a + 4)]
    have e1 : s.reads + 1 + rest.length / 4 = s.reads + (b0 :: b1 :: b2 :: b3 :: rest).length / 4 := by
      simp only [List.length_cons]
      omega
    simp [specWrites_cons4, e1]
  | [], a, s => by simp [programWords, specWrites]
  | [b0], a, s => by simp [programWords, specWrites]
  | [b0, b1], a, s => by simp [programWords, specWrites]
  | [b0, b1, b2], a, s => by simp [programWords, specWrites]

/-- C3: on an unlocked controller that accepts all writes, program_page at a
page-aligned logical address with a multiple-of-4-length data slice issues
exactly one 32-bit little-endian word write per 4-byte chunk, in order, at
consecutive addresses FLASH_BASE + a, FLASH_BASE + a + 4, ..., each followed
by one write-cycle wait (one status read per chunk), then sets the commit
bit, performs one operation wait, clears page-program, and succeeds. -/
theorem program_page_writes (σ : Nat → Statr) (s : St) (a : Nat) (data : List Nat)
    (hσ : acceptingOracle σ) (hl : s.ctlr.lock = false) (hf : s.ctlr.flock = false)
    (ha : a % 0x100 = 0) (hb : a + FLASH_BASE < U32) (hlen : data.length % 4 = 0) :
    program_page σ s a data =
      (Except.ok (),
        { s with
            reads := s.reads + data.length / 4 + 2,
            ctlr := { s.ctlr with page_pg := false, pgstart := true },
            trace := s.trace ++ [Effect.setPagePg true, Effect.clearEop] ++ specWrites data (FLASH_BASE + a) ++ [Effect.setPgstart, Effect.clearEop, Effect.setPagePg false] }) := by
  have ha2 : (a + FLASH_BASE) % U32 = a + FLASH_BASE := Nat.mod_eq_of_lt hb
  have hal : ¬(((a + FLASH_BASE) % U32) &&& 0xFF ≠ 0) := by
    rw [page_align_mod]
    simp [ha]
  simp only [program_page, hl, hf, Bool.or_self]
  rw [if_neg (by simp), if_neg hal, ha2]
  rw [busy_wait_accepting σ hσ]
  simp only []
  rw [programWords_accepting σ hσ data (a + FLASH_BASE)]
  simp only []
  rw [busy_wait_accepting σ hσ]
  have e1 : s.reads + 1 + data.length / 4 + 1 = s.reads + data.length / 4 + 2 := by omega
  have e2 : FLASH_BASE + a = a + FLASH_BASE := Nat.add_comm FLASH_BASE a
  simp [e1, e2]

/-- C3 witness: the concrete round-trip scenario: programming the 8-byte
payload at logical address 0x0100 on the always-idle controller issues
exactly the two word writes 0x04030201 at 0x08000100 and 0x08070605 at
0x08000104, each followed by a write-cycle wait, then commits, waits, clears
page-program and succeeds. -/
theorem program_page_writes_witness :
    program_page idleOracle st0 0x0100 [0x01, 0x02, 0x03, 0x04, 0x05, 0x06, 0x07, 0x08] =
      (Except.ok (),
        { reads := 4,
          ctlr := { lock := false, flock := false, ber32 := false, strt := false,
                    page_pg := false, pgstart := true },
          addrReg := 0,
          trace := [Effect.setPagePg true, Effect.clearEop,
                    Effect.writeMem 0x08000100 0x04030201, Effect.writeMem 0x08000104 0x08070605,
                    Effect.setPgstart, Effect.clearEop, Effect.setPagePg false] }) := by
  have h := program_page_writes idleOracle st0 0x0100 [0x01, 0x02, 0x03, 0x04, 0x05, 0x06, 0x07, 0x08]
    (fun i => ⟨rfl, rfl, Or.inl rfl⟩) rfl rfl (by norm_num) (by norm_num [FLASH_BASE, U32]) (by norm_num)
  exact h

end Ch32v208
